import Mathlib

/-!
Shallow embedding of `build.py`, the build-orchestration script of this
repository, together with theorems checking the claims made by the
specification.

The script drives an external protobuf compiler (`protoc`) to generate
Python ("ecosystem A") and JavaScript ("ecosystem B") bindings from
`.proto` files, then writes aggregator files (`__init__.py`, `index.js`)
and type stubs.  External processes are modelled by an oracle
`exitOf : List String → Nat` giving the exit code of a command line;
the filesystem is modelled as an ordered association list of
(filename, lines) pairs, the order being the directory-enumeration
order that `glob.glob` / `os.listdir` return.
-/

namespace Build

/-- Result of `find_protoc` (`build.py` lines 10-23): either the resolved
compiler path, or the exit code from `sys.exit(1)`. -/
def find_protoc (env : Option String) (pathExists : String → Bool)
    (which : Option String) : Except Nat String :=
  let protoc : Option String :=
    match env with
    | some p => if pathExists p then some p else which
    | none => which
  match protoc with
  | none => Except.error 1
  | some p => Except.ok p

/-- An external-process invocation performed by `compile_protos`, tagged by
the call site: the per-file python/mypy compile inside the loop, or the
single batched JS compile after it. -/
inductive Invocation where
  | py (cmd : List String)
  | js (cmd : List String)
  deriving DecidableEq

/-- The per-file command of `build.py` lines 46-52. -/
def pyCmd (protoc outDir f : String) : List String :=
  [protoc, "--proto_path=" ++ outDir, "--mypy_out=" ++ outDir,
   "--python_out=" ++ outDir, f]

/-- The initial batched JS command of `build.py` lines 34-38 (proto files
are appended to it inside the loop, line 43). -/
def npmBase (protoc outDir : String) : List String :=
  [protoc, "--proto_path=.", "--js_out=import_style=commonjs,binary:" ++ outDir]

structure LoopResult where
  invs : List Invocation
  gen : List String
  npmCmd : List String
  failed : Bool
  deriving DecidableEq

/-- The per-file loop of `build.py` lines 42-57: append the file to the JS
command, run the per-file compile, and on non-zero exit stop (modelling
`sys.exit(1)`).  `gen` records the files whose per-file compile succeeded
(their generated modules are on disk and never deleted). -/
def loopA (exitOf : List String → Nat) (protoc outDir : String) :
    List String → List String → LoopResult
  | npmCmd, [] => ⟨[], [], npmCmd, false⟩
  | npmCmd, f :: fs =>
    let npmCmd' := npmCmd ++ [f]
    let cmd := pyCmd protoc outDir f
    if exitOf cmd = 0 then
      let r := loopA exitOf protoc outDir npmCmd' fs
      ⟨Invocation.py cmd :: r.invs, f :: r.gen, r.npmCmd, r.failed⟩
    else
      ⟨[Invocation.py cmd], [], npmCmd', true⟩

structure CompileResult where
  invs : List Invocation
  exit : Option Nat
  gen : List String
  deriving DecidableEq

/-- The function `compile_protos` (`build.py` lines 26-67): locate the compiler, run the
per-file loop, then run the batched JS compile once.  `exit = some c`
models `sys.exit(c)`; `exit = none` is normal return. -/
def compile_protos (exitOf : List String → Nat) (env : Option String)
    (pathExists : String → Bool) (which : Option String)
    (outDir : String) (protoFiles : List String) : CompileResult :=
  match find_protoc env pathExists which with
  | Except.error c => ⟨[], some c, []⟩
  | Except.ok protoc =>
    let r := loopA exitOf protoc outDir (npmBase protoc outDir) protoFiles
    if r.failed then
      ⟨r.invs, some 1, r.gen⟩
    else
      let invs2 := r.invs ++ [Invocation.js r.npmCmd]
      if exitOf r.npmCmd = 0 then ⟨invs2, none, r.gen⟩ else ⟨invs2, some 1, r.gen⟩

/-- C4, part of the statement: recognizer for JS invocations. -/
def Invocation.isJs : Invocation → Bool
  | Invocation.py _ => false
  | Invocation.js _ => true

def Invocation.isPy : Invocation → Bool
  | Invocation.py _ => true
  | Invocation.js _ => false

/-! ## The model of `generate_index_js` (`build.py` lines 94-145)

A generated JS file is modelled as `(basename, lines)`, the lines being
the result of splitting the file content on newlines; the list of files is
in the (arbitrary) order the discovery glob enumerates them.

Python string primitives are modelled structurally on the code points
(`String.data`), which is exactly how Python compares and splits text;
this keeps every definition evaluable inside proofs. -/

/-- The apostrophe character (U+0027), written numerically. -/
def quoteChar : Char := Char.ofNat 39

/-- Python `s.split(sep)` for a one-character separator, on code points:
keeps empty segments, and splitting the empty string gives one empty
segment. -/
def splitChar (sep : Char) : List Char → List (List Char)
  | [] => [[]]
  | c :: cs =>
    if c = sep then [] :: splitChar sep cs
    else
      match splitChar sep cs with
      | [] => [[c]]
      | p :: ps => (c :: p) :: ps

def pySplit (s : String) (sep : Char) : List String :=
  (splitChar sep s.data).map String.mk

/-- Python `s.endswith(t)`, on code points. -/
def pyEndsWith (s t : String) : Bool := t.data.isSuffixOf s.data

/-- The export-line marker matched in `build.py` line 110 (the byte after
the opening parenthesis is the apostrophe). -/
def exportMarker : String := "goog.exportSymbol(\x27proto.mlens.v1."

/-- Line 111 of `build.py`: take the field between the first two apostrophes,
then the last dot-separated component of it. -/
def extractName (line : String) : String :=
  (pySplit ((pySplit line quoteChar).getD 1 "") '.').getLastD ""

/-- The per-line scan of `build.py` lines 108-112. -/
def extractSymbols (lines : List String) : List String :=
  (lines.filter (fun line =>
    exportMarker.data.isPrefixOf line.data)).map extractName

/-- The per-file scan of `build.py` lines 101-112: `(class, module)` pairs
in discovery order (`module_name` is the basename without `.js`). -/
def scanFiles : List (String × List String) → List (String × String)
  | [] => []
  | (fname, lines) :: rest =>
    (extractSymbols lines).map (fun c => (c, fname.dropRight 3)) ++ scanFiles rest

/-- One step of the `modules.setdefault(mod, []).append(cls)` grouping of
`build.py` lines 115-117 (Python dicts keep key insertion order). -/
def addPair (acc : List (String × List String)) (p : String × String) :
    List (String × List String) :=
  if acc.any (fun e => decide (e.1 = p.2)) then
    acc.map (fun e => if e.1 = p.2 then (e.1, e.2 ++ [p.1]) else e)
  else
    acc ++ [(p.2, [p.1])]

/-- The module grouping of `build.py` lines 115-117. -/
def modulesOf (pcs : List (String × String)) : List (String × List String) :=
  pcs.foldl addPair []

/-- First-match association lookup (what membership in a Python dict means
once keys are unique). -/
def valOf (m : String) : List (String × List String) → Option (List String)
  | [] => none
  | e :: rest => if e.1 = m then some e.2 else valOf m rest

/-- Python string comparison, lexicographic on code points. -/
def leChars : List Char → List Char → Bool
  | [], _ => true
  | _ :: _, [] => false
  | a :: as, b :: bs =>
    if a < b then true else if b < a then false else leChars as bs

/-- The order `sorted` uses on Python strings. -/
def pyLe (s t : String) : Prop := leChars s.data t.data = true

instance : DecidableRel pyLe :=
  fun s t => inferInstanceAs (Decidable (leChars s.data t.data = true))

/-- The expression `sorted(set(classes))` (`build.py` line 123): the distinct symbols in
ascending lexicographic order. -/
def sortedDedup (l : List String) : List String :=
  List.insertionSort pyLe l.dedup

/-- The duplicate-removing loop of `build.py` lines 131-136 (keep the first
occurrence of each name, preserving order). -/
def dedupFirstAux (seen : List String) : List String → List String
  | [] => []
  | c :: cs =>
    if c ∈ seen then dedupFirstAux seen cs
    else c :: dedupFirstAux (c :: seen) cs

def dedupFirst (l : List String) : List String := dedupFirstAux [] l

/-- The grouped require line of `build.py` line 124 (braces and
apostrophes written numerically). -/
def requireLine (moduleName : String) (classes : List String) : String :=
  "const \x7b " ++ String.intercalate ", " (sortedDedup classes) ++
    " \x7d = require(\x27./" ++ moduleName ++ "\x27);"

/-- The lines written to `index.js` (`build.py` lines 120-140): each
`f.write` of a `"...\n"` string contributes one line. -/
def indexJsLines (files : List (String × List String)) : List String :=
  let proto_classes := scanFiles files
  let modules := modulesOf proto_classes
  let requires := modules.map (fun e => requireLine e.1 e.2)
  let unique_classes := dedupFirst (proto_classes.map Prod.fst)
  requires ++ [""] ++
    ["module.exports = \x7b", "  " ++ String.intercalate ", " unique_classes,
     "\x7d;"]

/-- Modelled from the spec: the variant of the generation in which the
module files are processed in sorted filename order, as the claimed
"modules processed in filename order" would require. -/
def indexJsLinesFilenameOrder (files : List (String × List String)) : List String :=
  indexJsLines (List.insertionSort (fun a b => pyLe a.1 b.1) files)

/-- A directory enumeration that is not in filename order. -/
def exFilesB : List (String × List String) :=
  [("b_pb.js", ["goog.exportSymbol(\x27proto.mlens.v1.Y\x27, null, global);"]),
   ("a_pb.js", ["goog.exportSymbol(\x27proto.mlens.v1.X\x27, null, global);"])]

/-- The symbols extracted from module `m`, in scan order. -/
def clsOf (m : String) (pcs : List (String × String)) : List String :=
  (pcs.filter (fun p => decide (p.2 = m))).map Prod.fst

/-! ## The model of `generate_init` (`build.py` lines 70-91)

A loaded Python module is modelled by its `__name__` and its class
members as (class name, declaring module) pairs, the view that
`inspect.getmembers(module, inspect.isclass)` provides; `importlib`
becomes a function from module names to `Except`, an `error` standing for
a raised exception. -/

structure PyModule where
  name : String
  members : List (String × String)
  deriving DecidableEq

/-- The import lines written for one generated file when its module loads
(`build.py` lines 78-86): one line per class whose declaring module
equals the `__name__` of the loaded module. -/
def moduleLines (env : String → Except String PyModule) (filename : String) :
    List String :=
  let module_name := filename.dropRight 3
  match env ("mlens_proto." ++ module_name) with
  | Except.error _ => []
  | Except.ok module =>
    let classes := (module.members.filter
      (fun mb => decide (mb.2 = module.name))).map Prod.fst
    classes.map (fun cls => "from ." ++ module_name ++ " import " ++ cls)

/-- The loop of `build.py` lines 76-86 over the directory listing: `acc`
is the content written to the (truncated) aggregator so far; a load
failure stops the loop and carries the exception message out. -/
def initLoop (env : String → Except String PyModule) :
    List String → List String → List String × Option String
  | acc, [] => (acc, none)
  | acc, filename :: rest =>
    if pyEndsWith filename "_pb2.py" then
      match env ("mlens_proto." ++ filename.dropRight 3) with
      | Except.error e => (acc, some e)
      | Except.ok _ => initLoop env (acc ++ moduleLines env filename) rest
    else initLoop env acc rest

/-- The aggregator content produced on a run whose module loads all
succeed. -/
def generate_init_lines (listing : List String)
    (env : String → Except String PyModule) : List String :=
  (initLoop env [] listing).1

/-- Filesystem write with truncation: `open(name, "w")` followed by the
writes replaces the content of an existing entry, or appends a new one;
the directory order of the other entries is untouched. -/
def fsWrite (fs : List (String × List String)) (n : String)
    (content : List String) : List (String × List String) :=
  if fs.any (fun e => decide (e.1 = n)) then
    fs.map (fun e => if e.1 = n then (n, content) else e)
  else fs ++ [(n, content)]

/-- Process state observed by `generate_init`: the module search path
(`sys.path`) and the package directory as (filename, lines) entries in
listing order. -/
structure InitState where
  searchPath : List String
  files : List (String × List String)
  deriving DecidableEq

structure InitOutcome where
  state : InitState
  duringPath : List String
  exit : Option Nat
  deriving DecidableEq

/-- The function `generate_init` (`build.py` lines 70-91): insert the output directory
at the front of `sys.path`; open the aggregator for writing (truncating
it) and run the loop over the directory listing; on an exception print
the error and `sys.exit(1)`.  On both exit paths the `finally` block
first pops the front entry of the search path.  `duringPath` is the
search path in effect while the body runs. -/
def generate_init_run (env : String → Except String PyModule)
    (output_dir : String) (st : InitState) : InitOutcome :=
  let path1 := output_dir :: st.searchPath
  let listing := st.files.map Prod.fst
  let r := initLoop env [] listing
  let files1 := fsWrite st.files "__init__.py" r.1
  let path2 := path1.drop 1
  match r.2 with
  | none => ⟨⟨path2, files1⟩, path1, none⟩
  | some _ => ⟨⟨path2, files1⟩, path1, some 1⟩

/-! ## The model of `generate_stubs` (`build.py` lines 148-171) -/

structure StubOutcome where
  cwd : String
  exit : Option Nat
  invoked : Bool
  deriving DecidableEq

/-- The stub tool command of `build.py` lines 157-167. -/
def stubCmd (stubgen : String) : List String :=
  [stubgen, "-o", ".", "--no-import", "-m", "mlens_proto"]

/-- The function `generate_stubs` (`build.py` lines 148-171): look up `stubgen`, save
the working directory, `chdir` to the output root and run the tool.  The
restore `os.chdir(cwd)` on line 171 stands after the `try`/`except`, not
in a `finally`: when the tool exits non-zero the handler calls
`sys.exit(1)` and line 171 is never reached, so the process terminates
with the working directory still equal to the output root. -/
def generate_stubs_run (which_stubgen : Option String)
    (exitOf : List String → Nat) (output_dir : String) (cwd0 : String) :
    StubOutcome :=
  match which_stubgen with
  | none => ⟨cwd0, some 1, false⟩
  | some stubgen =>
    if exitOf (stubCmd stubgen) = 0 then ⟨cwd0, none, true⟩
    else ⟨output_dir, some 1, true⟩

/-- A module environment for the witnesses: `a_pb2` defines `Foo` and
re-exports `Bar` from elsewhere. -/
def exEnvA : String → Except String PyModule := fun n =>
  if n = "mlens_proto.a_pb2" then
    Except.ok ⟨"mlens_proto.a_pb2",
      [("Bar", "mlens_proto.other"), ("Foo", "mlens_proto.a_pb2")]⟩
  else Except.error "No module named "

/-- A loader for the witnesses that succeeds on `a_pb2` and raises on
everything else. -/
def exEnvFail : String → Except String PyModule := fun n =>
  if n = "mlens_proto.a_pb2" then
    Except.ok ⟨"mlens_proto.a_pb2", [("Foo", "mlens_proto.a_pb2")]⟩
  else Except.error "boom"

/-! ## Idempotence of the aggregator stages (C8) -/

/-- The function `generate_init` as a filesystem transformer: the aggregator write a
successful run performs (the search-path bookkeeping is dropped; see
`generate_init_fs_eq_run`). -/
def generate_init_fs (env : String → Except String PyModule)
    (fs : List (String × List String)) : List (String × List String) :=
  fsWrite fs "__init__.py" (generate_init_lines (fs.map Prod.fst) env)

/-- The function `generate_index_js` as a filesystem transformer (`build.py` lines
94-145): scan the `*_pb.js` files in listing order and write `index.js`. -/
def generate_index_js_fs (fs : List (String × List String)) :
    List (String × List String) :=
  fsWrite fs "index.js"
    (indexJsLines (fs.filter (fun e => pyEndsWith e.1 "_pb.js")))

/-- The two aggregator-generation stages in pipeline order. -/
def aggregatorStages (env : String → Except String PyModule)
    (fs : List (String × List String)) : List (String × List String) :=
  generate_index_js_fs (generate_init_fs env fs)

/-- The file `n` exists in `fs` and every entry named `n` has content
`c`. -/
def okAt (fs : List (String × List String)) (n : String)
    (c : List String) : Prop :=
  fs.any (fun e => decide (e.1 = n)) = true ∧ ∀ e ∈ fs, e.1 = n → e.2 = c

/-! ## Theorems -/

theorem loopA_all_ok (exitOf : List String → Nat) (protoc outDir : String)
    (files : List String) :
    ∀ npmCmd, (∀ f ∈ files, exitOf (pyCmd protoc outDir f) = 0) →
      loopA exitOf protoc outDir npmCmd files =
        ⟨files.map (fun f => Invocation.py (pyCmd protoc outDir f)), files,
         npmCmd ++ files, false⟩ := by
  induction files with
  | nil => intro npmCmd _; simp [loopA]
  | cons f fs ih =>
    intro npmCmd h
    have hf : exitOf (pyCmd protoc outDir f) = 0 := h f (List.mem_cons_self _ _)
    have hfs : ∀ g ∈ fs, exitOf (pyCmd protoc outDir g) = 0 :=
      fun g hg => h g (List.mem_cons_of_mem _ hg)
    simp [loopA, hf, ih (npmCmd ++ [f]) hfs]

theorem loopA_fail (exitOf : List String → Nat) (protoc outDir : String)
    (pre : List String) (bad : String) (post : List String) :
    ∀ npmCmd, (∀ f ∈ pre, exitOf (pyCmd protoc outDir f) = 0) →
      exitOf (pyCmd protoc outDir bad) ≠ 0 →
      loopA exitOf protoc outDir npmCmd (pre ++ bad :: post) =
        ⟨pre.map (fun f => Invocation.py (pyCmd protoc outDir f)) ++
           [Invocation.py (pyCmd protoc outDir bad)], pre,
         npmCmd ++ pre ++ [bad], true⟩ := by
  induction pre with
  | nil =>
    intro npmCmd _ hbad
    simp [loopA, hbad]
  | cons f fs ih =>
    intro npmCmd h hbad
    have hf : exitOf (pyCmd protoc outDir f) = 0 := h f (List.mem_cons_self _ _)
    have hfs : ∀ g ∈ fs, exitOf (pyCmd protoc outDir g) = 0 :=
      fun g hg => h g (List.mem_cons_of_mem _ hg)
    simp [loopA, hf, ih (npmCmd ++ [f]) hfs hbad, List.append_assoc]

/-- C4: the locator returns the environment override exactly when it is set
and the path exists; when set but non-existent it is silently ignored in
favour of the search path; and when neither yields a binary, the run exits
non-zero with no invocation performed and no file generated. -/
theorem find_protoc_spec (pathExists : String → Bool) (which : Option String)
    (exitOf : List String → Nat) (outDir : String) (files : List String) :
    (∀ p, pathExists p = true →
      find_protoc (some p) pathExists which = Except.ok p)
    ∧ (∀ p, pathExists p = false →
      find_protoc (some p) pathExists which =
        match which with
        | some q => Except.ok q
        | none => Except.error 1)
    ∧ (∀ env, (env = none ∨ ∃ p, env = some p ∧ pathExists p = false) →
      which = none →
      compile_protos exitOf env pathExists which outDir files =
        ⟨[], some 1, []⟩) := by
  refine ⟨fun p hp => by simp [find_protoc, hp],
          fun p hp => by cases which <;> simp [find_protoc, hp],
          fun env henv hw => ?_⟩
  rcases henv with h | ⟨p, hp, hpe⟩
  · simp [compile_protos, find_protoc, h, hw]
  · simp [compile_protos, find_protoc, hp, hpe, hw]

theorem find_protoc_spec_witness :
    (find_protoc (some "/opt/protoc") (fun _ => true) none =
      Except.ok "/opt/protoc")
    ∧ (find_protoc (some "/opt/protoc") (fun _ => false) (some "/usr/bin/protoc") =
      Except.ok "/usr/bin/protoc")
    ∧ (compile_protos (fun _ => 0) (some "/opt/protoc") (fun _ => false) none
        "." ["a.proto"] = ⟨[], some 1, []⟩) :=
  ⟨(find_protoc_spec (fun _ => true) none (fun _ => 0) "." ["a.proto"]).1
      "/opt/protoc" rfl,
   (find_protoc_spec (fun _ => false) (some "/usr/bin/protoc") (fun _ => 0)
      "." ["a.proto"]).2.1 "/opt/protoc" rfl,
   (find_protoc_spec (fun _ => false) none (fun _ => 0) "." ["a.proto"]).2.2
      (some "/opt/protoc") (Or.inr ⟨"/opt/protoc", rfl, rfl⟩) rfl⟩

/-- C3: when the per-file compile of `bad` exits non-zero after the files of
`pre` compiled successfully, the run performs exactly the per-file
invocations for `pre` and `bad` (no file after `bad` is compiled, the JS
batch is never run), exits with status 1, and the modules generated for
`pre` are left in place. -/
theorem compile_protos_abort_on_failure (exitOf : List String → Nat)
    (env : Option String) (pathExists : String → Bool) (which : Option String)
    (outDir protoc : String) (pre : List String) (bad : String)
    (post : List String)
    (hfind : find_protoc env pathExists which = Except.ok protoc)
    (hpre : ∀ f ∈ pre, exitOf (pyCmd protoc outDir f) = 0)
    (hbad : exitOf (pyCmd protoc outDir bad) ≠ 0) :
    compile_protos exitOf env pathExists which outDir (pre ++ bad :: post) =
      ⟨pre.map (fun f => Invocation.py (pyCmd protoc outDir f)) ++
         [Invocation.py (pyCmd protoc outDir bad)], some 1, pre⟩
    ∧ ∀ c, Invocation.js c ∉
        (compile_protos exitOf env pathExists which outDir
          (pre ++ bad :: post)).invs := by
  have hloop := loopA_fail exitOf protoc outDir pre bad post
    (npmBase protoc outDir) hpre hbad
  have hmain : compile_protos exitOf env pathExists which outDir
      (pre ++ bad :: post) =
      ⟨pre.map (fun f => Invocation.py (pyCmd protoc outDir f)) ++
         [Invocation.py (pyCmd protoc outDir bad)], some 1, pre⟩ := by
    simp [compile_protos, hfind, hloop]
  refine ⟨hmain, fun c hc => ?_⟩
  rw [hmain] at hc
  rcases List.mem_append.mp hc with h | h
  · rcases List.mem_map.mp h with ⟨f, _, hf⟩
    exact Invocation.noConfusion hf
  · rcases List.mem_singleton.mp h with h
    exact Invocation.noConfusion h

theorem compile_protos_abort_on_failure_witness :
    compile_protos (fun cmd => if "b.proto" ∈ cmd then 1 else 0)
        none (fun _ => false) (some "protoc") "." ["a.proto", "b.proto", "c.proto"] =
      ⟨[Invocation.py (pyCmd "protoc" "." "a.proto"),
        Invocation.py (pyCmd "protoc" "." "b.proto")], some 1, ["a.proto"]⟩ :=
  (compile_protos_abort_on_failure (fun cmd => if "b.proto" ∈ cmd then 1 else 0)
    none (fun _ => false) (some "protoc") "." "protoc" ["a.proto"] "b.proto"
    ["c.proto"] rfl (by decide) (by decide)).1

/-- C7: when every per-file compile succeeds, the run performs one per-file
ecosystem-A invocation per discovered file (in discovery order) and exactly
one batched ecosystem-B invocation, whose command carries the include path
`--proto_path=.` and every discovered file. -/
theorem compile_protos_invocations (exitOf : List String → Nat)
    (env : Option String) (pathExists : String → Bool) (which : Option String)
    (outDir protoc : String) (files : List String)
    (hfind : find_protoc env pathExists which = Except.ok protoc)
    (hok : ∀ f ∈ files, exitOf (pyCmd protoc outDir f) = 0) :
    (compile_protos exitOf env pathExists which outDir files).invs =
      files.map (fun f => Invocation.py (pyCmd protoc outDir f)) ++
        [Invocation.js (npmBase protoc outDir ++ files)]
    ∧ ((compile_protos exitOf env pathExists which outDir files).invs.countP
        Invocation.isJs) = 1
    ∧ ((compile_protos exitOf env pathExists which outDir files).invs.countP
        Invocation.isPy) = files.length
    ∧ "--proto_path=." ∈ npmBase protoc outDir ++ files
    ∧ ∀ f ∈ files, f ∈ npmBase protoc outDir ++ files := by
  have hloop := loopA_all_ok exitOf protoc outDir files (npmBase protoc outDir) hok
  have hinv : (compile_protos exitOf env pathExists which outDir files).invs =
      files.map (fun f => Invocation.py (pyCmd protoc outDir f)) ++
        [Invocation.js (npmBase protoc outDir ++ files)] := by
    by_cases hjs : exitOf (npmBase protoc outDir ++ files) = 0 <;>
      simp [compile_protos, hfind, hloop, hjs]
  refine ⟨hinv, ?_, ?_, ?_, fun f hf => List.mem_append_right _ hf⟩
  · rw [hinv, List.countP_append, List.countP_map]
    simp [Invocation.isJs, Function.comp, List.countP_eq_length_filter]
  · rw [hinv, List.countP_append, List.countP_map]
    simp [Invocation.isPy, Invocation.isJs, Function.comp]
  · exact List.mem_append_left _ (by simp [npmBase])

theorem compile_protos_invocations_witness :
    (compile_protos (fun _ => 0) none (fun _ => false) (some "protoc") "."
        ["a.proto", "b.proto"]).invs =
      [Invocation.py (pyCmd "protoc" "." "a.proto"),
       Invocation.py (pyCmd "protoc" "." "b.proto"),
       Invocation.js (npmBase "protoc" "." ++ ["a.proto", "b.proto"])] :=
  (compile_protos_invocations (fun _ => 0) none (fun _ => false)
    (some "protoc") "." "protoc" ["a.proto", "b.proto"] rfl (by decide)).1

theorem mem_dedupFirstAux {a : String} :
    ∀ (l seen : List String), a ∈ dedupFirstAux seen l ↔ a ∈ l ∧ a ∉ seen := by
  intro l
  induction l with
  | nil => intro seen; simp [dedupFirstAux]
  | cons c cs ih =>
    intro seen
    by_cases hc : c ∈ seen
    · rw [dedupFirstAux, if_pos hc, ih]
      constructor
      · rintro ⟨h1, h2⟩; exact ⟨List.mem_cons_of_mem _ h1, h2⟩
      · rintro ⟨h1, h2⟩
        rcases List.mem_cons.mp h1 with h | h
        · exact absurd (h ▸ hc) h2
        · exact ⟨h, h2⟩
    · rw [dedupFirstAux, if_neg hc]
      constructor
      · intro h
        rcases List.mem_cons.mp h with h | h
        · exact ⟨h ▸ List.mem_cons_self _ _, h ▸ hc⟩
        · rcases (ih (c :: seen)).mp h with ⟨h1, h2⟩
          exact ⟨List.mem_cons_of_mem _ h1,
            fun hs => h2 (List.mem_cons_of_mem _ hs)⟩
      · rintro ⟨h1, h2⟩
        by_cases hac : a = c
        · exact hac ▸ List.mem_cons_self _ _
        · rcases List.mem_cons.mp h1 with h | h
          · exact absurd h hac
          · exact List.mem_cons_of_mem _ ((ih (c :: seen)).mpr
              ⟨h, fun hs => (List.mem_cons.mp hs).elim hac h2⟩)

theorem nodup_dedupFirstAux :
    ∀ (l seen : List String), (dedupFirstAux seen l).Nodup := by
  intro l
  induction l with
  | nil => intro seen; simp [dedupFirstAux]
  | cons c cs ih =>
    intro seen
    by_cases hc : c ∈ seen
    · rw [dedupFirstAux, if_pos hc]; exact ih seen
    · rw [dedupFirstAux, if_neg hc]
      refine List.nodup_cons.mpr ⟨fun h => ?_, ih (c :: seen)⟩
      exact ((mem_dedupFirstAux cs (c :: seen)).mp h).2 (List.mem_cons_self _ _)

theorem pairwise_indexOf_dedupFirstAux :
    ∀ (l seen : List String),
      (dedupFirstAux seen l).Pairwise
        (fun a b => l.indexOf a < l.indexOf b) := by
  intro l
  induction l with
  | nil => intro seen; simp [dedupFirstAux]
  | cons c cs ih =>
    intro seen
    by_cases hc : c ∈ seen
    · rw [dedupFirstAux, if_pos hc]
      refine (ih seen).imp_of_mem ?_
      intro a b ha hb hr
      have hac : c ≠ a :=
        fun h => ((mem_dedupFirstAux cs seen).mp ha).2 (h ▸ hc)
      have hbc : c ≠ b :=
        fun h => ((mem_dedupFirstAux cs seen).mp hb).2 (h ▸ hc)
      rw [List.indexOf_cons_ne _ hac, List.indexOf_cons_ne _ hbc]
      exact Nat.succ_lt_succ hr
    · rw [dedupFirstAux, if_neg hc]
      refine List.pairwise_cons.mpr ⟨fun b hb => ?_, ?_⟩
      · have hbc : c ≠ b := fun h =>
          ((mem_dedupFirstAux cs (c :: seen)).mp hb).2 (h ▸ List.mem_cons_self _ _)
        rw [List.indexOf_cons_self, List.indexOf_cons_ne _ hbc]
        exact Nat.succ_pos _
      · refine (ih (c :: seen)).imp_of_mem ?_
        intro a b ha hb hr
        have hac : c ≠ a := fun h =>
          ((mem_dedupFirstAux cs (c :: seen)).mp ha).2 (h ▸ List.mem_cons_self _ _)
        have hbc : c ≠ b := fun h =>
          ((mem_dedupFirstAux cs (c :: seen)).mp hb).2 (h ▸ List.mem_cons_self _ _)
        rw [List.indexOf_cons_ne _ hac, List.indexOf_cons_ne _ hbc]
        exact Nat.succ_lt_succ hr

/-- C2 (amended): with `l` the extracted symbols in discovery order, the
combined export list of `index.js` is `dedupFirst l`: it contains each
distinct extracted symbol exactly once (`Nodup`, membership-equal to `l`)
and lists them in strictly increasing order of first appearance in `l`
(`List.indexOf` is the index of the first occurrence).  The modules are
processed in the order the glob enumerates the files, not in sorted
filename order. -/
theorem indexJs_export_list (files : List (String × List String)) :
    indexJsLines files =
      (modulesOf (scanFiles files)).map (fun e => requireLine e.1 e.2) ++ [""] ++
        ["module.exports = \x7b",
         "  " ++ String.intercalate ", "
            (dedupFirst ((scanFiles files).map Prod.fst)), "\x7d;"]
    ∧ (dedupFirst ((scanFiles files).map Prod.fst)).Nodup
    ∧ (∀ a, a ∈ dedupFirst ((scanFiles files).map Prod.fst) ↔
        a ∈ (scanFiles files).map Prod.fst)
    ∧ (dedupFirst ((scanFiles files).map Prod.fst)).Pairwise
        (fun a b => ((scanFiles files).map Prod.fst).indexOf a <
          ((scanFiles files).map Prod.fst).indexOf b) :=
  ⟨rfl, nodup_dedupFirstAux _ _,
   fun a => by rw [dedupFirst, mem_dedupFirstAux]; simp,
   pairwise_indexOf_dedupFirstAux _ _⟩

theorem leChars_iff_not_lex : ∀ as bs : List Char,
    leChars as bs = true ↔ ¬ List.Lex (· < ·) bs as := by
  intro as
  induction as with
  | nil =>
    intro bs
    exact iff_of_true rfl (List.Lex.not_nil_right _ _)
  | cons a as ih =>
    intro bs
    cases bs with
    | nil =>
      apply iff_of_false
      · simp [leChars]
      · intro h; exact h List.Lex.nil
    | cons b bs =>
      by_cases hab : a < b
      · refine iff_of_true (by simp [leChars, hab]) (fun h => ?_)
        cases h with
        | cons h => exact lt_irrefl a hab
        | rel h => exact lt_asymm hab h
      · by_cases hba : b < a
        · refine iff_of_false (by simp [leChars, hab, hba]) (fun h => ?_)
          exact h (List.Lex.rel hba)
        · have heq : a = b := le_antisymm (not_lt.mp hba) (not_lt.mp hab)
          subst heq
          rw [show leChars (a :: as) (a :: bs) = leChars as bs by
                simp [leChars], ih bs]
          exact not_congr List.Lex.cons_iff.symm

/-- The order used by the model of `sorted` agrees with the lexicographic
order on strings. -/
theorem pyLe_iff (s t : String) : pyLe s t ↔ s ≤ t := by
  rw [pyLe, leChars_iff_not_lex, String.le_iff_toList_le]
  exact not_lt (a := t.toList) (b := s.toList)

theorem pyLe_total (a b : String) : pyLe a b ∨ pyLe b a := by
  rcases le_total a b with h | h
  · exact Or.inl ((pyLe_iff a b).mpr h)
  · exact Or.inr ((pyLe_iff b a).mpr h)

theorem pyLe_trans_thm (a b c : String) : pyLe a b → pyLe b c → pyLe a c :=
  fun h1 h2 => (pyLe_iff a c).mpr
    (le_trans ((pyLe_iff a b).mp h1) ((pyLe_iff b c).mp h2))

theorem valOf_append_single (m n : String) (c : List String)
    (acc : List (String × List String)) :
    valOf m (acc ++ [(n, c)]) =
      match valOf m acc with
      | some cs => some cs
      | none => if n = m then some c else none := by
  induction acc with
  | nil => simp [valOf]
  | cons e rest ih =>
    by_cases h : e.1 = m <;> simp [valOf, h, ih]

theorem any_eq_valOf (m : String) (acc : List (String × List String)) :
    acc.any (fun e => decide (e.1 = m)) = (valOf m acc).isSome := by
  induction acc with
  | nil => rfl
  | cons e rest ih =>
    by_cases h : e.1 = m <;> simp [valOf, h, ih]

theorem valOf_replace (m n : String) (c : String)
    (acc : List (String × List String)) :
    valOf m (acc.map (fun e => if e.1 = n then (e.1, e.2 ++ [c]) else e)) =
      match valOf m acc with
      | some cs => if n = m then some (cs ++ [c]) else some cs
      | none => none := by
  induction acc with
  | nil => rfl
  | cons e rest ih =>
    by_cases hn : e.1 = n
    · by_cases hm : e.1 = m
      · have h1 : n = m := hn.symm.trans hm
        simp [valOf, hn, hm, h1]
      · have h1 : ¬ n = m := fun h => hm (hn.trans h)
        simp [valOf, hn, hm, h1, ih]
    · by_cases hm : e.1 = m
      · have h1 : ¬ n = m := fun h => hn (hm.trans h.symm)
        have h2 : ¬ m = n := fun h => h1 h.symm
        simp [valOf, hn, hm, h1, h2]
      · simp [valOf, hn, hm, ih]

theorem valOf_addPair (acc : List (String × List String)) (c mf m : String) :
    valOf m (addPair acc (c, mf)) =
      if mf = m then some ((valOf m acc).getD [] ++ [c]) else valOf m acc := by
  unfold addPair
  by_cases hany : (acc.any (fun e => decide (e.1 = mf))) = true
  · rw [if_pos hany]
    rw [show ((c, mf).2 : String) = mf from rfl, show ((c, mf).1 : String) = c from rfl]
    rw [valOf_replace]
    by_cases hm : mf = m
    · subst hm
      have hs := any_eq_valOf mf acc
      rw [hany] at hs
      cases hv : valOf mf acc with
      | none => rw [hv] at hs; exact absurd hs.symm (by simp)
      | some cs => simp [hv]
    · cases hv : valOf m acc with
      | none => simp [hv, hm]
      | some cs => simp [hv, hm]
  · rw [if_neg hany]
    rw [show ((c, mf).2 : String) = mf from rfl, show ((c, mf).1 : String) = c from rfl]
    rw [valOf_append_single]
    have hvmf : valOf mf acc = none := by
      have hs := any_eq_valOf mf acc
      cases hv : valOf mf acc with
      | none => rfl
      | some cs => rw [hv] at hs; exact absurd (hs.trans rfl) hany
    by_cases hm : mf = m
    · subst hm
      rw [hvmf]
      simp
    · cases hv : valOf m acc with
      | none => simp [hv, hm]
      | some cs => simp [hv, hm]

theorem valOf_modulesOf (m : String) :
    ∀ (pcs : List (String × String)) (acc : List (String × List String)),
      valOf m (pcs.foldl addPair acc) =
        match valOf m acc with
        | some cs => some (cs ++ clsOf m pcs)
        | none =>
          if m ∈ pcs.map Prod.snd then some (clsOf m pcs) else none := by
  intro pcs
  induction pcs with
  | nil =>
    intro acc
    cases hv : valOf m acc <;> simp [clsOf, hv]
  | cons p rest ih =>
    intro acc
    obtain ⟨c, mf⟩ := p
    rw [List.foldl_cons, ih (addPair acc (c, mf)), valOf_addPair]
    by_cases hm : mf = m
    · subst hm
      have hcls : clsOf mf ((c, mf) :: rest) = c :: clsOf mf rest := by
        simp [clsOf]
      cases hv : valOf mf acc with
      | some cs => simp [hv, hcls]
      | none => simp [hv, hcls]
    · have hcls : clsOf m ((c, mf) :: rest) = clsOf m rest := by
        simp [clsOf, hm]
      have hm2 : ¬ m = mf := fun h => hm h.symm
      have hiff : m ∈ mf :: List.map Prod.snd rest ↔ m ∈ List.map Prod.snd rest := by
        simp [hm2]
      cases hv : valOf m acc with
      | some cs => simp [hv, hm, hcls]
      | none =>
        simp only [hv, if_neg hm, hcls, List.map_cons]
        exact (if_congr hiff rfl rfl).symm

theorem valOf_some_mem (m : String) (cs : List String) :
    ∀ acc : List (String × List String),
      valOf m acc = some cs → (m, cs) ∈ acc := by
  intro acc
  induction acc with
  | nil => intro h; exact absurd h (by simp [valOf])
  | cons e rest ih =>
    intro h
    by_cases he : e.1 = m
    · rw [valOf, if_pos he] at h
      obtain ⟨e1, e2⟩ := e
      obtain rfl : e1 = m := he
      obtain rfl : e2 = cs := Option.some.inj h
      exact List.mem_cons_self _ _
    · rw [valOf, if_neg he] at h
      exact List.mem_cons_of_mem _ (ih h)

theorem indexJsLines_eq (files : List (String × List String)) :
    indexJsLines files =
      (modulesOf (scanFiles files)).map (fun e => requireLine e.1 e.2) ++ [""] ++
        ["module.exports = \x7b",
         "  " ++ String.intercalate ", "
            (dedupFirst ((scanFiles files).map Prod.fst)), "\x7d;"] := rfl

/-- C5: each module entry of the grouping holds exactly the symbols
extracted from that module in scan order; the grouped require line written
for it appears in `index.js`, and its class list is the de-duplicated,
alphabetically sorted list of those symbols. -/
theorem indexJs_require_line_spec (files : List (String × List String))
    (m : String) (cs : List String)
    (h : valOf m (modulesOf (scanFiles files)) = some cs) :
    cs = clsOf m (scanFiles files)
    ∧ requireLine m cs ∈ indexJsLines files
    ∧ (sortedDedup cs).Sorted (fun a b => a ≤ b)
    ∧ (sortedDedup cs).Nodup
    ∧ (∀ s, s ∈ sortedDedup cs ↔ s ∈ cs) := by
  have hchar := valOf_modulesOf m (scanFiles files) []
  rw [modulesOf] at h
  rw [h] at hchar
  have hcs : cs = clsOf m (scanFiles files) := by
    by_cases hmem : m ∈ (scanFiles files).map Prod.snd
    · simpa [valOf, hmem] using hchar
    · exact absurd hchar (by simp [valOf, hmem])
  have hmem : (m, cs) ∈ modulesOf (scanFiles files) := valOf_some_mem _ _ _ h
  refine ⟨hcs, ?_, ?_, ?_, ?_⟩
  · have hmap := List.mem_map_of_mem
      (fun e : String × List String => requireLine e.1 e.2) hmem
    rw [indexJsLines_eq]
    exact List.mem_append_left _ (List.mem_append_left _ hmap)
  · haveI : IsTotal String pyLe := ⟨pyLe_total⟩
    haveI : IsTrans String pyLe := ⟨pyLe_trans_thm⟩
    exact (List.sorted_insertionSort pyLe cs.dedup).imp
      (fun hab => (pyLe_iff _ _).mp hab)
  · exact ((List.perm_insertionSort pyLe cs.dedup).nodup_iff).mpr cs.nodup_dedup
  · exact fun s => (List.perm_insertionSort pyLe cs.dedup).mem_iff.trans
      (List.mem_dedup)

theorem indexJs_require_line_spec_witness :
    requireLine "b_pb" ["Y"] ∈ indexJsLines exFilesB :=
  (indexJs_require_line_spec exFilesB "b_pb" ["Y"] (by decide)).2.1

set_option maxRecDepth 4000 in
/-- C2, counterexample: when the glob enumerates `b_pb.js` before
`a_pb.js`, the export list is `Y, X` (enumeration order), not the `X, Y`
that processing the modules in filename order would give. -/
theorem indexJs_not_filename_order :
    indexJsLines exFilesB ≠ indexJsLinesFilenameOrder exFilesB
    ∧ "  Y, X" ∈ indexJsLines exFilesB
    ∧ "  X, Y" ∉ indexJsLines exFilesB := by
  refine ⟨?_, ?_, ?_⟩ <;> decide

theorem initLoop_ok (env : String → Except String PyModule) :
    ∀ (listing : List String) (acc : List String),
      (∀ f ∈ listing, pyEndsWith f "_pb2.py" = true →
        (env ("mlens_proto." ++ f.dropRight 3)).isOk = true) →
      initLoop env acc listing =
        (acc ++ (listing.filter (fun f => pyEndsWith f "_pb2.py")).flatMap
          (moduleLines env), none) := by
  intro listing
  induction listing with
  | nil => intro acc _; simp [initLoop]
  | cons f rest ih =>
    intro acc hok
    by_cases hf : pyEndsWith f "_pb2.py" = true
    · simp only [initLoop, if_pos hf]
      cases henv : env ("mlens_proto." ++ f.dropRight 3) with
      | error e =>
        have := hok f (List.mem_cons_self _ _) hf
        rw [henv] at this
        exact absurd this (by simp [Except.isOk, Except.toBool])
      | ok M =>
        rw [ih _ (fun g hg hg2 => hok g (List.mem_cons_of_mem _ hg) hg2)]
        simp [hf, List.append_assoc]
    · simp only [initLoop, if_neg hf]
      rw [ih _ (fun g hg hg2 => hok g (List.mem_cons_of_mem _ hg) hg2)]
      simp [hf]

theorem initLoop_fail (env : String → Except String PyModule)
    (bad : String) (rest : List String) (msg : String)
    (hbad : pyEndsWith bad "_pb2.py" = true)
    (henv : env ("mlens_proto." ++ bad.dropRight 3) = Except.error msg) :
    ∀ (pre : List String) (acc : List String),
      (∀ f ∈ pre, pyEndsWith f "_pb2.py" = true →
        (env ("mlens_proto." ++ f.dropRight 3)).isOk = true) →
      initLoop env acc (pre ++ bad :: rest) =
        (acc ++ (pre.filter (fun f => pyEndsWith f "_pb2.py")).flatMap
          (moduleLines env), some msg) := by
  intro pre
  induction pre with
  | nil =>
    intro acc _
    simp only [List.nil_append, initLoop, if_pos hbad, henv]
    simp
  | cons f pres ih =>
    intro acc hok
    by_cases hf : pyEndsWith f "_pb2.py" = true
    · simp only [List.cons_append, initLoop, if_pos hf, List.append_eq]
      cases henvf : env ("mlens_proto." ++ f.dropRight 3) with
      | error e =>
        have := hok f (List.mem_cons_self _ _) hf
        rw [henvf] at this
        exact absurd this (by simp [Except.isOk, Except.toBool])
      | ok M =>
        rw [ih _ (fun g hg hg2 => hok g (List.mem_cons_of_mem _ hg) hg2)]
        simp [hf, List.append_assoc]
    · simp only [List.cons_append, initLoop, if_neg hf, List.append_eq]
      rw [ih _ (fun g hg hg2 => hok g (List.mem_cons_of_mem _ hg) hg2)]
      simp [hf]

theorem mem_moduleLines (env : String → Except String PyModule)
    (filename : String) (M : PyModule) (line : String)
    (henv : env ("mlens_proto." ++ filename.dropRight 3) = Except.ok M) :
    line ∈ moduleLines env filename ↔
      ∃ cls, (cls, M.name) ∈ M.members ∧
        line = "from ." ++ filename.dropRight 3 ++ " import " ++ cls := by
  rw [moduleLines]
  simp only [henv, List.mem_map, List.mem_filter]
  constructor
  · rintro ⟨cls, ⟨mb, ⟨hmb, hdec⟩, hfst⟩, hline⟩
    refine ⟨cls, ?_, hline.symm⟩
    have h2 : mb.2 = M.name := of_decide_eq_true hdec
    have : mb = (cls, M.name) := by
      obtain ⟨m1, m2⟩ := mb
      simp only at hfst h2
      rw [hfst, h2]
    exact this ▸ hmb
  · rintro ⟨cls, hmem, hline⟩
    exact ⟨cls, ⟨(cls, M.name), ⟨hmem, by simp⟩, rfl⟩, hline.symm⟩

/-- C6: on a run whose module loads succeed, the ecosystem-A aggregator
contains, for every listed generated module and every class whose
declaring module equals the name of the loaded module, the import line
for that exact class/module pair; and every line of the aggregator is of
that form, so classes re-exported from a different module contribute no
line. -/
theorem generate_init_aggregator (listing : List String)
    (env : String → Except String PyModule)
    (hok : ∀ f ∈ listing, pyEndsWith f "_pb2.py" = true →
      (env ("mlens_proto." ++ f.dropRight 3)).isOk = true) :
    (∀ filename M cls, filename ∈ listing →
      pyEndsWith filename "_pb2.py" = true →
      env ("mlens_proto." ++ filename.dropRight 3) = Except.ok M →
      (cls, M.name) ∈ M.members →
      ("from ." ++ filename.dropRight 3 ++ " import " ++ cls) ∈
        generate_init_lines listing env)
    ∧ (∀ line ∈ generate_init_lines listing env,
        ∃ filename M cls, filename ∈ listing ∧
          pyEndsWith filename "_pb2.py" = true ∧
          env ("mlens_proto." ++ filename.dropRight 3) = Except.ok M ∧
          (cls, M.name) ∈ M.members ∧
          line = "from ." ++ filename.dropRight 3 ++ " import " ++ cls) := by
  have hrun := initLoop_ok env listing [] hok
  have hlines : generate_init_lines listing env =
      (listing.filter (fun f => pyEndsWith f "_pb2.py")).flatMap
        (moduleLines env) := by
    rw [generate_init_lines, hrun]
    simp
  constructor
  · intro filename M cls hmem hsuf henv hcls
    rw [hlines]
    refine List.mem_flatMap.mpr ⟨filename, List.mem_filter.mpr ⟨hmem, by simp [hsuf]⟩, ?_⟩
    exact (mem_moduleLines env filename M _ henv).mpr ⟨cls, hcls, rfl⟩
  · intro line hline
    rw [hlines] at hline
    obtain ⟨filename, hfmem, hlm⟩ := List.mem_flatMap.mp hline
    obtain ⟨hmem, hsuf⟩ := List.mem_filter.mp hfmem
    have hsuf2 : pyEndsWith filename "_pb2.py" = true := by simpa using hsuf
    have hisok := hok filename hmem hsuf2
    cases henv : env ("mlens_proto." ++ filename.dropRight 3) with
    | error e =>
      rw [henv] at hisok
      exact absurd hisok (by simp [Except.isOk, Except.toBool])
    | ok M =>
      obtain ⟨cls, hcls, hline2⟩ := (mem_moduleLines env filename M _ henv).mp hlm
      exact ⟨filename, M, cls, hmem, hsuf2, henv, hcls, hline2⟩

theorem generate_init_aggregator_witness :
    "from .a_pb2 import Foo" ∈ generate_init_lines ["a_pb2.py", "notes.txt"] exEnvA :=
  (generate_init_aggregator ["a_pb2.py", "notes.txt"] exEnvA (by decide)).1
    "a_pb2.py" ⟨"mlens_proto.a_pb2",
      [("Bar", "mlens_proto.other"), ("Foo", "mlens_proto.a_pb2")]⟩ "Foo"
    (by decide) (by decide) (by rfl) (by decide)

theorem valOf_setContent_self (n : String) (c : List String) :
    ∀ fs : List (String × List String),
      fs.any (fun e => decide (e.1 = n)) = true →
      valOf n (fs.map (fun e => if e.1 = n then (n, c) else e)) = some c := by
  intro fs
  induction fs with
  | nil => intro h; simp at h
  | cons e rest ih =>
    intro h
    by_cases he : e.1 = n
    · simp [valOf, he]
    · rw [List.map_cons, if_neg he]
      simp only [valOf, if_neg he]
      refine ih ?_
      simpa [he] using h

theorem valOf_fsWrite_self (fs : List (String × List String)) (n : String)
    (c : List String) : valOf n (fsWrite fs n c) = some c := by
  rw [fsWrite]
  by_cases h : fs.any (fun e => decide (e.1 = n)) = true
  · rw [if_pos h]; exact valOf_setContent_self n c fs h
  · rw [if_neg h, valOf_append_single]
    have hv : valOf n fs = none := by
      have hs := any_eq_valOf n fs
      cases hvv : valOf n fs with
      | none => rfl
      | some cs => rw [hvv] at hs; exact absurd (hs.trans rfl) h
    rw [hv]; simp

/-- C9: the initializer truncates the aggregator before loading the
modules, so when some module fails to load the run exits with status 1
and the aggregator is left behind containing exactly the lines produced
for the files before the failing one (possibly none), independent of its
previous content. -/
theorem generate_init_partial_on_failure (env : String → Except String PyModule)
    (d : String) (st : InitState) (pre : List String) (bad : String)
    (rest : List String) (msg : String)
    (hlist : st.files.map Prod.fst = pre ++ bad :: rest)
    (hok : ∀ f ∈ pre, pyEndsWith f "_pb2.py" = true →
      (env ("mlens_proto." ++ f.dropRight 3)).isOk = true)
    (hbad : pyEndsWith bad "_pb2.py" = true)
    (henv : env ("mlens_proto." ++ bad.dropRight 3) = Except.error msg) :
    (generate_init_run env d st).exit = some 1
    ∧ valOf "__init__.py" (generate_init_run env d st).state.files =
        some ((pre.filter (fun f => pyEndsWith f "_pb2.py")).flatMap
          (moduleLines env)) := by
  have hloop := initLoop_fail env bad rest msg hbad henv pre [] hok
  have hrun : generate_init_run env d st =
      ⟨⟨st.searchPath, fsWrite st.files "__init__.py"
          ((pre.filter (fun f => pyEndsWith f "_pb2.py")).flatMap
            (moduleLines env))⟩, d :: st.searchPath, some 1⟩ := by
    simp only [generate_init_run]
    rw [hlist, hloop]
    simp
  rw [hrun]
  exact ⟨rfl, valOf_fsWrite_self _ _ _⟩

theorem generate_init_partial_on_failure_witness :
    (generate_init_run exEnvFail "." ⟨["lib"],
      [("a_pb2.py", []), ("b_pb2.py", [])]⟩).exit = some 1
    ∧ valOf "__init__.py" (generate_init_run exEnvFail "."
        ⟨["lib"], [("a_pb2.py", []), ("b_pb2.py", [])]⟩).state.files =
      some ["from .a_pb2 import Foo"] := by
  have h := generate_init_partial_on_failure exEnvFail "."
    ⟨["lib"], [("a_pb2.py", []), ("b_pb2.py", [])]⟩ ["a_pb2.py"] "b_pb2.py"
    [] "boom" (by rfl) (by decide) (by decide) (by rfl)
  refine ⟨h.1, ?_⟩
  rw [h.2]
  rfl

/-- C10: `generate_init` inserts the output directory at the front of the
module search path for the duration of the body, and the cleanup pops
exactly that front entry on both the normal and the exception exit path,
so the search path after the stage equals the one before it. -/
theorem generate_init_searchPath (env : String → Except String PyModule)
    (d : String) (st : InitState) :
    (generate_init_run env d st).duringPath = d :: st.searchPath
    ∧ (generate_init_run env d st).state.searchPath = st.searchPath
    ∧ ((generate_init_run env d st).exit = none ∨
        (generate_init_run env d st).exit = some 1) := by
  unfold generate_init_run
  cases h : (initLoop env [] (st.files.map Prod.fst)).2 <;> simp [h]

/-- C1, counterexample: with the stub tool exiting non-zero, the run
terminates with exit status 1 while the working directory is still the
output root, not the saved one: the restoration is not performed before
the failure is surfaced, because the restore statement stands after the
`try`/`except` instead of in a `finally`. -/
theorem generate_stubs_no_restore_on_failure :
    (generate_stubs_run (some "stubgen") (fun _ => 1) "/out" "/start").exit =
      some 1
    ∧ (generate_stubs_run (some "stubgen") (fun _ => 1) "/out" "/start").cwd =
      "/out"
    ∧ (generate_stubs_run (some "stubgen") (fun _ => 1) "/out" "/start").cwd ≠
      "/start" :=
  ⟨rfl, rfl, by decide⟩

/-- C1 (amended): the working directory is restored to the saved directory
only when the stub tool succeeds; when the tool exits non-zero the process
exits with status 1 with the working directory still the output root (and
no subsequent stage runs, the process having terminated); when the tool is
missing, no directory change happens and the run exits non-zero. -/
theorem generate_stubs_restore (stubgen : String) (exitOf : List String → Nat)
    (output_dir cwd0 : String) :
    (exitOf (stubCmd stubgen) = 0 →
      generate_stubs_run (some stubgen) exitOf output_dir cwd0 =
        ⟨cwd0, none, true⟩)
    ∧ (exitOf (stubCmd stubgen) ≠ 0 →
      generate_stubs_run (some stubgen) exitOf output_dir cwd0 =
        ⟨output_dir, some 1, true⟩)
    ∧ generate_stubs_run none exitOf output_dir cwd0 = ⟨cwd0, some 1, false⟩ :=
  ⟨fun h => by simp [generate_stubs_run, h],
   fun h => by simp [generate_stubs_run, h], rfl⟩

theorem generate_stubs_restore_witness :
    (generate_stubs_run (some "stubgen") (fun _ => 0) "/out" "/start" =
      ⟨"/start", none, true⟩)
    ∧ (generate_stubs_run (some "stubgen") (fun _ => 1) "/o" "/home" =
      ⟨"/o", some 1, true⟩) :=
  ⟨(generate_stubs_restore "stubgen" (fun _ => 0) "/out" "/start").1 rfl,
   (generate_stubs_restore "stubgen" (fun _ => 1) "/o" "/home").2.1 (by decide)⟩

theorem generate_init_fs_eq_run (env : String → Except String PyModule)
    (d : String) (st : InitState) :
    (generate_init_run env d st).state.files = generate_init_fs env st.files := by
  simp only [generate_init_run, generate_init_fs, generate_init_lines]
  cases (initLoop env [] (st.files.map Prod.fst)).2 <;> rfl

theorem map_id_of_mem {α : Type} :
    ∀ (l : List α) (f : α → α), (∀ a ∈ l, f a = a) → l.map f = l := by
  intro l f
  induction l with
  | nil => intro _; rfl
  | cons a rest ih =>
    intro h
    rw [List.map_cons, h a (List.mem_cons_self _ _),
      ih (fun b hb => h b (List.mem_cons_of_mem _ hb))]

theorem filter_setContent (fs : List (String × List String)) (n : String)
    (c : List String) (p : String → Bool) (hp : p n = false) :
    (fs.map (fun e => if e.1 = n then (n, c) else e)).filter
        (fun e => p e.1) =
      fs.filter (fun e => p e.1) := by
  induction fs with
  | nil => rfl
  | cons e rest ih =>
    by_cases he : e.1 = n
    · simp [he, hp, ih]
    · rw [List.map_cons, if_neg he, List.filter_cons, List.filter_cons, ih]

theorem filter_fsWrite (fs : List (String × List String)) (n : String)
    (c : List String) (p : String → Bool) (hp : p n = false) :
    (fsWrite fs n c).filter (fun e => p e.1) = fs.filter (fun e => p e.1) := by
  rw [fsWrite]
  by_cases h : fs.any (fun e => decide (e.1 = n)) = true
  · rw [if_pos h]; exact filter_setContent fs n c p hp
  · rw [if_neg h, List.filter_append]; simp [hp]

theorem map_fst_setContent (fs : List (String × List String)) (n : String)
    (c : List String) :
    (fs.map (fun e => if e.1 = n then (n, c) else e)).map Prod.fst =
      fs.map Prod.fst := by
  induction fs with
  | nil => rfl
  | cons e rest ih =>
    by_cases he : e.1 = n <;> simp [he, ih]

theorem map_fst_fsWrite (fs : List (String × List String)) (n : String)
    (c : List String) :
    (fsWrite fs n c).map Prod.fst =
      if fs.any (fun e => decide (e.1 = n)) = true then fs.map Prod.fst
      else fs.map Prod.fst ++ [n] := by
  rw [fsWrite]
  by_cases h : fs.any (fun e => decide (e.1 = n)) = true
  · simp only [if_pos h]
    exact map_fst_setContent fs n c
  · simp only [if_neg h]
    simp

/-- The initializer reads the listing only through its `*_pb2.py` part. -/
theorem initLoop_filter (env : String → Except String PyModule) :
    ∀ (listing : List String) (acc : List String),
      initLoop env acc listing =
        initLoop env acc (listing.filter (fun f => pyEndsWith f "_pb2.py")) := by
  intro listing
  induction listing with
  | nil => intro acc; rfl
  | cons f rest ih =>
    intro acc
    by_cases hf : pyEndsWith f "_pb2.py" = true
    · rw [List.filter_cons_of_pos (by simp [hf])]
      simp only [initLoop, if_pos hf]
      cases henv : env ("mlens_proto." ++ f.dropRight 3) with
      | error e => rfl
      | ok M => exact ih _
    · rw [List.filter_cons_of_neg (by simp [hf])]
      simp only [initLoop, if_neg hf]
      exact ih acc

theorem generate_init_lines_stable (listing : List String) (n : String)
    (env : String → Except String PyModule)
    (hn : pyEndsWith n "_pb2.py" = false) :
    generate_init_lines (listing ++ [n]) env =
      generate_init_lines listing env := by
  rw [generate_init_lines, generate_init_lines,
    initLoop_filter env (listing ++ [n]), initLoop_filter env listing,
    List.filter_append]
  simp [hn]

theorem generate_init_lines_fsWrite (env : String → Except String PyModule)
    (fs : List (String × List String)) (n : String) (c : List String)
    (hn : pyEndsWith n "_pb2.py" = false) :
    generate_init_lines ((fsWrite fs n c).map Prod.fst) env =
      generate_init_lines (fs.map Prod.fst) env := by
  rw [map_fst_fsWrite]
  by_cases h : fs.any (fun e => decide (e.1 = n)) = true
  · rw [if_pos h]
  · rw [if_neg h]; exact generate_init_lines_stable _ n env hn

theorem any_name_setContent (fs : List (String × List String))
    (n m : String) (d : List String) :
    (fs.map (fun e => if e.1 = m then (m, d) else e)).any
        (fun e => decide (e.1 = n)) =
      fs.any (fun e => decide (e.1 = n)) := by
  induction fs with
  | nil => rfl
  | cons e rest ih =>
    by_cases he : e.1 = m <;> simp [he, ih]

theorem okAt_fsWrite_self (fs : List (String × List String)) (n : String)
    (c : List String) : okAt (fsWrite fs n c) n c := by
  rw [fsWrite]
  by_cases h : fs.any (fun e => decide (e.1 = n)) = true
  · rw [if_pos h]
    constructor
    · rw [any_name_setContent fs n n c]; exact h
    · intro e he hn
      obtain ⟨e0, he0, rfl⟩ := List.mem_map.mp he
      by_cases h0 : e0.1 = n
      · simp [h0]
      · rw [if_neg h0] at hn ⊢
        exact absurd hn h0
  · rw [if_neg h]
    constructor
    · rw [List.any_append]; simp
    · intro e he hn
      rcases List.mem_append.mp he with h1 | h1
      · exfalso
        exact absurd (List.any_eq_true.mpr ⟨e, h1, by simp [hn]⟩) h
      · rw [List.mem_singleton.mp h1]

theorem okAt_fsWrite_other (fs : List (String × List String))
    (n : String) (c : List String) (m : String) (d : List String)
    (hnm : m ≠ n) (h : okAt fs n c) : okAt (fsWrite fs m d) n c := by
  obtain ⟨h1, h2⟩ := h
  rw [fsWrite]
  by_cases hany : fs.any (fun e => decide (e.1 = m)) = true
  · rw [if_pos hany]
    constructor
    · rw [any_name_setContent fs n m d]; exact h1
    · intro e he hn
      obtain ⟨e0, he0, rfl⟩ := List.mem_map.mp he
      by_cases h0 : e0.1 = m
      · rw [if_pos h0] at hn ⊢
        exact absurd hn hnm
      · rw [if_neg h0] at hn ⊢
        exact h2 e0 he0 hn
  · rw [if_neg hany]
    constructor
    · rw [List.any_append]; simp [h1]
    · intro e he hn
      rcases List.mem_append.mp he with h1' | h1'
      · exact h2 e h1' hn
      · rw [List.mem_singleton.mp h1'] at hn
        exact absurd hn hnm

theorem fsWrite_of_okAt (fs : List (String × List String)) (n : String)
    (c : List String) (h : okAt fs n c) : fsWrite fs n c = fs := by
  obtain ⟨h1, h2⟩ := h
  rw [fsWrite, if_pos h1]
  apply map_id_of_mem
  intro e he
  by_cases h0 : e.1 = n
  · rw [if_pos h0]
    have hc := h2 e he h0
    obtain ⟨e1, e2⟩ := e
    simp only at h0 hc
    rw [h0, hc]
  · rw [if_neg h0]

/-- C8: running the two aggregator-generation stages twice over the same
filesystem state (the same entries with the same contents, enumerated in
the same order) with the same deterministic module loader produces exactly
the same filesystem as running them once: the aggregator files written by
the second run are byte-for-byte those of the first. -/
theorem aggregator_stages_idempotent (env : String → Except String PyModule)
    (fs : List (String × List String)) :
    aggregatorStages env (aggregatorStages env fs) = aggregatorStages env fs := by
  have hi : pyEndsWith "__init__.py" "_pb2.py" = false := by decide
  have hx : pyEndsWith "index.js" "_pb2.py" = false := by decide
  have hxj : pyEndsWith "index.js" "_pb.js" = false := by decide
  have hne : ("index.js" : String) ≠ "__init__.py" := by decide
  simp only [aggregatorStages, generate_index_js_fs, generate_init_fs]
  set a := generate_init_lines (fs.map Prod.fst) env with ha
  set W1 := fsWrite fs "__init__.py" a with hW1
  set b := indexJsLines (W1.filter (fun e => pyEndsWith e.1 "_pb.js")) with hb
  set W2 := fsWrite W1 "index.js" b with hW2
  have hA2 : generate_init_lines (W2.map Prod.fst) env = a := by
    rw [hW2, generate_init_lines_fsWrite env W1 "index.js" b hx,
      hW1, generate_init_lines_fsWrite env fs "__init__.py" a hi]
  rw [hA2]
  have hok1 : okAt W2 "__init__.py" a := by
    rw [hW2]
    refine okAt_fsWrite_other W1 "__init__.py" a "index.js" b hne ?_
    rw [hW1]
    exact okAt_fsWrite_self fs "__init__.py" a
  rw [fsWrite_of_okAt W2 "__init__.py" a hok1]
  have hfil : W2.filter (fun e => pyEndsWith e.1 "_pb.js") =
      W1.filter (fun e => pyEndsWith e.1 "_pb.js") := by
    rw [hW2]
    exact filter_fsWrite W1 "index.js" b (fun s => pyEndsWith s "_pb.js") hxj
  rw [hfil, ← hb, hW2]
  exact fsWrite_of_okAt _ _ _ (okAt_fsWrite_self W1 "index.js" b)

end Build
